import Mathlib

/-!
Verification of the SIMON block-cipher core (simon.cpp).

Words are modelled as `Nat`; a word of width `w` is kept below `2 ^ w` by
masking with `% 2 ^ w` exactly where the C++ word type wraps.  The round
keys are accessed through a function `Nat → Nat`, mirroring the C array
`k[R]`.  The key schedule is built as a list, most recent word first, and
reversed at the end, which mirrors the C loop writing `key[i]` from
`key[i-1]`, `key[i-m]` (and for the four-word recurrence `key[i-3]`).
-/

namespace Simon

/-- Left rotation by `r` within word width `w` (rotlConstant). -/
def rotl (w r v : Nat) : Nat := ((v <<< r) ||| (v >>> (w - r))) % 2 ^ w

/-- Right rotation by `r` within word width `w` (rotrConstant). -/
def rotr (w r v : Nat) : Nat := ((v >>> r) ||| (v <<< (w - r))) % 2 ^ w

/-- Round transformation helper `f(v) = (ROL1(v) AND ROL8(v)) XOR ROL2(v)`. -/
def fR (w v : Nat) : Nat := (rotl w 1 v &&& rotl w 8 v) ^^^ rotl w 2 v

/-- Paired round transformation `R2`: `y ^= f(x); y ^= k; x ^= f(y); x ^= l`,
returning the updated `(x, y)`. -/
def R2 (w x y k l : Nat) : Nat × Nat :=
  let y1 := (y ^^^ fR w x) ^^^ k
  let x1 := (x ^^^ fR w y1) ^^^ l
  (x1, y1)

/-- One iteration of the encryption loop: `R2(c[0], c[1], k[i], k[i+1])`. -/
def encStep (w k l : Nat) (st : Nat × Nat) : Nat × Nat := R2 w st.1 st.2 k l

/-- One iteration of the decryption loop: `R2(p[1], p[0], k[i+1], k[i])`,
the results read back into `(p[0], p[1])`. -/
def decStep (w k l : Nat) (st : Nat × Nat) : Nat × Nat :=
  let r := R2 w st.2 st.1 l k
  (r.2, r.1)

/-- The encryption loop over pairs `i = 0, 2, …, 2*(n-1)`; the pair with the
highest index is applied last, as in the forward `for` loop. -/
def encLoop (w : Nat) (k : Nat → Nat) : Nat → Nat × Nat → Nat × Nat
  | 0, st => st
  | n + 1, st => encStep w (k (2 * n)) (k (2 * n + 1)) (encLoop w k n st)

/-- The decryption loop over pairs `i = 2*(n-1), …, 2, 0`; the pair with the
highest index is applied first, as in the backward `for` loop. -/
def decLoop (w : Nat) (k : Nat → Nat) : Nat → Nat × Nat → Nat × Nat
  | 0, st => st
  | n + 1, st => decLoop w k n (decStep w (k (2 * n)) (k (2 * n + 1)) st)

/-- SIMON forward transformation: `R/2` paired rounds, then for odd `R` the
final single round `c[1] ^= f(c[0]); c[1] ^= k[R-1]` followed by a swap. -/
def SIMON_Encrypt (w R : Nat) (k : Nat → Nat) (p : Nat × Nat) : Nat × Nat :=
  let c := encLoop w k (R / 2) p
  if R % 2 = 1 then ((c.2 ^^^ fR w c.1) ^^^ k (R - 1), c.1) else c

/-- SIMON reverse transformation: for odd `R` first swap, undo the last
single round (`p[1] ^= k[R-1]; p[1] ^= f(p[0])`), then `(R-1)/2` paired
rounds backwards. -/
def SIMON_Decrypt (w R : Nat) (k : Nat → Nat) (c : Nat × Nat) : Nat × Nat :=
  if R % 2 = 1 then
    decLoop w k ((R - 1) / 2) (c.2, (c.1 ^^^ k (R - 1)) ^^^ fR w c.2)
  else
    decLoop w k (R / 2) c

/-- Two-key-word recurrence body:
`c ^ bit ^ key[i-m] ^ ROR3(key[i-1]) ^ ROR4(key[i-1])` at width `w`. -/
def sched2 (w bit kim kprev : Nat) : Nat :=
  (((2 ^ w - 4) ^^^ bit) ^^^ kim) ^^^ rotr w 3 kprev ^^^ rotr w 4 kprev

/-- Four-key-word recurrence body:
`c ^ bit ^ key[i-4] ^ ROR3(key[i-1]) ^ key[i-3] ^ ROR4(key[i-1]) ^ ROR1(key[i-3])`
at width `w`. -/
def sched4 (w bit kim4 kprev kim3 : Nat) : Nat :=
  ((((2 ^ w - 4) ^^^ bit) ^^^ kim4) ^^^ rotr w 3 kprev ^^^ kim3) ^^^
    rotr w 4 kprev ^^^ rotr w 1 kim3

/-- Body of a z-driven loop iteration for the two-word recurrence with
`m = 2`: the accumulator holds the schedule most recent word first, so
`key[i-1]` is entry 0 and `key[i-2]` is entry 1; the `j`-th iteration sees
bit `j` of the original `z`. -/
def stepK2 (w z : Nat) (a : List Nat) (j : Nat) : List Nat :=
  sched2 w ((z >>> j) &&& 1) (a.getD 1 0) (a.getD 0 0) :: a

/-- Body of a z-driven loop iteration for the two-word recurrence with
`m = 3`: `key[i-3]` is accumulator entry 2. -/
def stepK3 (w z : Nat) (a : List Nat) (j : Nat) : List Nat :=
  sched2 w ((z >>> j) &&& 1) (a.getD 2 0) (a.getD 0 0) :: a

/-- Body of a z-driven loop iteration for the four-word recurrence with
`m = 4`: `key[i-4]` is accumulator entry 3 and `key[i-3]` entry 2. -/
def stepK4 (w z : Nat) (a : List Nat) (j : Nat) : List Nat :=
  sched4 w ((z >>> j) &&& 1) (a.getD 3 0) (a.getD 0 0) (a.getD 2 0) :: a

/-- Number of z-driven iterations of the 42-round schedule: `for i=3; i<42`. -/
def zSteps_42R3K : Nat := 42 - 3

/-- Number of z-driven iterations of the 44-round schedule: `for i=4; i<44`. -/
def zSteps_44R4K : Nat := 44 - 4

/-- Number of z-driven iterations of the 68-round schedule: `for i=2; i<66`. -/
def zSteps_68R2K : Nat := 66 - 2

/-- Number of z-driven iterations of the 69-round schedule: `for i=3; i<67`. -/
def zSteps_69R3K : Nat := 67 - 3

/-- Number of z-driven iterations of the 72-round schedule: `for i=4; i<68`. -/
def zSteps_72R4K : Nat := 68 - 4

/-- SIMON-64 with 96-bit key and 42 rounds.  `key[0]=k[2]; key[1]=k[1];
key[2]=k[0]`, then the two-word recurrence with `z = 0x7369f885192c0ef5`;
the accumulator holds the schedule most recent word first. -/
def SIMON64_ExpandKey_42R3K (k : List Nat) : List Nat :=
  let acc :=
    (List.range zSteps_42R3K).foldl (stepK3 32 0x7369f885192c0ef5)
      [k.getD 0 0, k.getD 1 0, k.getD 2 0]
  acc.reverse

/-- SIMON-64 with 128-bit key and 44 rounds.  Seeds `k[3] … k[0]`, then the
four-word recurrence with `z = 0xfc2ce51207a635db`. -/
def SIMON64_ExpandKey_44R4K (k : List Nat) : List Nat :=
  let acc :=
    (List.range zSteps_44R4K).foldl (stepK4 32 0xfc2ce51207a635db)
      [k.getD 0 0, k.getD 1 0, k.getD 2 0, k.getD 3 0]
  acc.reverse

/-- SIMON-128 with 128-bit key and 68 rounds.  Seeds `k[1], k[0]`, the
two-word recurrence with `z = 0x7369f885192c0ef5` for `i ∈ [2, 66)`, then
the two tail words with bits 1 and 0. -/
def SIMON128_ExpandKey_68R2K (k : List Nat) : List Nat :=
  let acc :=
    (List.range zSteps_68R2K).foldl (stepK2 64 0x7369f885192c0ef5)
      [k.getD 0 0, k.getD 1 0]
  let k66 := sched2 64 1 (acc.getD 1 0) (acc.getD 0 0)
  let k67 := sched2 64 0 (acc.getD 0 0) k66
  (k67 :: k66 :: acc).reverse

/-- SIMON-128 with 192-bit key and 69 rounds.  Seeds `k[2], k[1], k[0]`, the
two-word recurrence with `z = 0xfc2ce51207a635db` for `i ∈ [3, 67)`, then
the two tail words with bits 0 and 1. -/
def SIMON128_ExpandKey_69R3K (k : List Nat) : List Nat :=
  let acc :=
    (List.range zSteps_69R3K).foldl (stepK3 64 0xfc2ce51207a635db)
      [k.getD 0 0, k.getD 1 0, k.getD 2 0]
  let k67 := sched2 64 0 (acc.getD 2 0) (acc.getD 0 0)
  let k68 := sched2 64 1 ((k67 :: acc).getD 2 0) k67
  (k68 :: k67 :: acc).reverse

/-- SIMON-128 with 256-bit key and 72 rounds.  Seeds `k[3] … k[0]`, the
four-word recurrence with `z = 0xfdc94c3a046d678b` for `i ∈ [4, 68)`, then
the four tail words with bits 0, 1, 0, 0. -/
def SIMON128_ExpandKey_72R4K (k : List Nat) : List Nat :=
  let acc :=
    (List.range zSteps_72R4K).foldl (stepK4 64 0xfdc94c3a046d678b)
      [k.getD 0 0, k.getD 1 0, k.getD 2 0, k.getD 3 0]
  let k68 := sched4 64 0 (acc.getD 3 0) (acc.getD 0 0) (acc.getD 2 0)
  let a69 := k68 :: acc
  let k69 := sched4 64 1 (a69.getD 3 0) (a69.getD 0 0) (a69.getD 2 0)
  let a70 := k69 :: a69
  let k70 := sched4 64 0 (a70.getD 3 0) (a70.getD 0 0) (a70.getD 2 0)
  let a71 := k70 :: a70
  let k71 := sched4 64 0 (a71.getD 3 0) (a71.getD 0 0) (a71.getD 2 0)
  (k71 :: a71).reverse

/-- Big-endian decoding of a byte sequence into one word. -/
def beWord (bytes : List Nat) : Nat := bytes.foldl (fun a b => a * 256 + b) 0

/-- Big-endian decoding of a byte sequence into its sequence of `wb`-byte
words (GetUserKey with BIG_ENDIAN_ORDER). -/
def beWords (wb : Nat) (l : List Nat) : List Nat :=
  (List.range (l.length / wb)).map (fun i => beWord ((l.drop (i * wb)).take wb))

/-- SIMON64::Base::UncheckedSetKey: `m_kwords = keyLength/4`, decode the user
key big-endian, then dispatch on the word count; the `default` branch is
`CRYPTOPP_ASSERT(0)` and is modelled as `none`.  Returns the stored
`(m_rounds, m_rkeys)`. -/
def SIMON64_UncheckedSetKey (userKey : List Nat) : Option (Nat × List Nat) :=
  let kwords := userKey.length / 4
  let ws := beWords 4 userKey
  match kwords with
  | 3 => some (42, SIMON64_ExpandKey_42R3K ws)
  | 4 => some (44, SIMON64_ExpandKey_44R4K ws)
  | _ => none

/-- SIMON128::Base::UncheckedSetKey: `m_kwords = keyLength/8`, decode the user
key big-endian, then dispatch on the word count; the `default` branch is
`CRYPTOPP_ASSERT(0)` and is modelled as `none`. -/
def SIMON128_UncheckedSetKey (userKey : List Nat) : Option (Nat × List Nat) :=
  let kwords := userKey.length / 8
  let ws := beWords 8 userKey
  match kwords with
  | 2 => some (68, SIMON128_ExpandKey_68R2K ws)
  | 3 => some (69, SIMON128_ExpandKey_69R3K ws)
  | 4 => some (72, SIMON128_ExpandKey_72R4K ws)
  | _ => none

/-- The one error class of the core. -/
inductive KeyError where
  | invalidKeyLength
  deriving DecidableEq

/-- Modelled from the spec: the key-length validation lives in the host
library's `SetKey` path (SimpleKeyingInterface / the declarations of
simon.h), not in src/simon.cpp.  The spec: "validate length ∈ {12, 16} for
SIMON-64 …; Fails with InvalidKeyLength otherwise", after which the
expansion of simon.cpp runs. -/
def SIMON64_SetKey (userKey : List Nat) : Except KeyError (Nat × List Nat) :=
  if userKey.length = 12 ∨ userKey.length = 16 then
    match SIMON64_UncheckedSetKey userKey with
    | some r => Except.ok r
    | none => Except.error KeyError.invalidKeyLength
  else
    Except.error KeyError.invalidKeyLength

/-- Modelled from the spec: the key-length validation lives in the host
library's `SetKey` path, not in src/simon.cpp.  The spec: "validate length
∈ … {16, 24, 32} for SIMON-128; Fails with InvalidKeyLength otherwise". -/
def SIMON128_SetKey (userKey : List Nat) : Except KeyError (Nat × List Nat) :=
  if userKey.length = 16 ∨ userKey.length = 24 ∨ userKey.length = 32 then
    match SIMON128_UncheckedSetKey userKey with
    | some r => Except.ok r
    | none => Except.error KeyError.invalidKeyLength
  else
    Except.error KeyError.invalidKeyLength

/-! Byte-addressed memory model for ProcessAndXorBlock.  The C++ code reads
the whole input block into the workspace (GetBlock), runs the transform, and
only then writes the output block (PutBlock with a null xor block), so the
model reads from the given store first and writes afterwards. -/

/-- A byte-addressed store. -/
abbrev Mem : Type := Nat → Nat

/-- Store one byte. -/
def writeByte (mem : Mem) (a v : Nat) : Mem :=
  fun x => if x = a then v else mem x

/-- GetBlock with BigEndian: read an `n`-byte word, most significant byte
first, from address `a`. -/
def readWordBE (mem : Mem) (a n : Nat) : Nat :=
  (List.range n).foldl (fun acc j => acc * 256 + mem (a + j)) 0

/-- PutBlock with BigEndian and a null xor block: write the `n`-byte word
`v`, most significant byte first, at address `a`. -/
def writeWordBE (mem : Mem) (a n v : Nat) : Mem :=
  (List.range n).foldl
    (fun m j => writeByte m (a + j) ((v >>> (8 * (n - 1 - j))) % 256)) mem

/-- The switch over `m_rounds` in SIMON64::Enc::ProcessAndXorBlock; the
`default` branch is `CRYPTOPP_ASSERT(0)`, unreachable for a configured
instance, modelled as the pair `(0, 0)`. -/
def SIMON64_encSwitch (rk : Nat → Nat) (rounds : Nat) (p : Nat × Nat) :
    Nat × Nat :=
  match rounds with
  | 42 => SIMON_Encrypt 32 42 rk p
  | 44 => SIMON_Encrypt 32 44 rk p
  | _ => (0, 0)

/-- SIMON64::Enc::ProcessAndXorBlock (null xor block): read two big-endian
32-bit words at `inB`, dispatch on `m_rounds`, write the two result words at
`outB`.  The C++ reads the whole block into the workspace before writing. -/
def SIMON64_Enc_ProcessBlock (rk : Nat → Nat) (rounds : Nat) (mem : Mem)
    (inB outB : Nat) : Mem :=
  let x := readWordBE mem inB 4
  let y := readWordBE mem (inB + 4) 4
  let c := SIMON64_encSwitch rk rounds (x, y)
  writeWordBE (writeWordBE mem outB 4 c.1) (outB + 4) 4 c.2

/-- The switch over `m_rounds` in SIMON64::Dec::ProcessAndXorBlock. -/
def SIMON64_decSwitch (rk : Nat → Nat) (rounds : Nat) (p : Nat × Nat) :
    Nat × Nat :=
  match rounds with
  | 42 => SIMON_Decrypt 32 42 rk p
  | 44 => SIMON_Decrypt 32 44 rk p
  | _ => (0, 0)

/-- SIMON64::Dec::ProcessAndXorBlock (null xor block). -/
def SIMON64_Dec_ProcessBlock (rk : Nat → Nat) (rounds : Nat) (mem : Mem)
    (inB outB : Nat) : Mem :=
  let x := readWordBE mem inB 4
  let y := readWordBE mem (inB + 4) 4
  let c := SIMON64_decSwitch rk rounds (x, y)
  writeWordBE (writeWordBE mem outB 4 c.1) (outB + 4) 4 c.2

/-- The switch over `m_rounds` in SIMON128::Enc::ProcessAndXorBlock. -/
def SIMON128_encSwitch (rk : Nat → Nat) (rounds : Nat) (p : Nat × Nat) :
    Nat × Nat :=
  match rounds with
  | 68 => SIMON_Encrypt 64 68 rk p
  | 69 => SIMON_Encrypt 64 69 rk p
  | 72 => SIMON_Encrypt 64 72 rk p
  | _ => (0, 0)

/-- SIMON128::Enc::ProcessAndXorBlock (null xor block): as for SIMON-64 but
with 64-bit words and rounds 68, 69, 72. -/
def SIMON128_Enc_ProcessBlock (rk : Nat → Nat) (rounds : Nat) (mem : Mem)
    (inB outB : Nat) : Mem :=
  let x := readWordBE mem inB 8
  let y := readWordBE mem (inB + 8) 8
  let c := SIMON128_encSwitch rk rounds (x, y)
  writeWordBE (writeWordBE mem outB 8 c.1) (outB + 8) 8 c.2

/-- The switch over `m_rounds` in SIMON128::Dec::ProcessAndXorBlock. -/
def SIMON128_decSwitch (rk : Nat → Nat) (rounds : Nat) (p : Nat × Nat) :
    Nat × Nat :=
  match rounds with
  | 68 => SIMON_Decrypt 64 68 rk p
  | 69 => SIMON_Decrypt 64 69 rk p
  | 72 => SIMON_Decrypt 64 72 rk p
  | _ => (0, 0)

/-- SIMON128::Dec::ProcessAndXorBlock (null xor block). -/
def SIMON128_Dec_ProcessBlock (rk : Nat → Nat) (rounds : Nat) (mem : Mem)
    (inB outB : Nat) : Mem :=
  let x := readWordBE mem inB 8
  let y := readWordBE mem (inB + 8) 8
  let c := SIMON128_decSwitch rk rounds (x, y)
  writeWordBE (writeWordBE mem outB 8 c.1) (outB + 8) 8 c.2

/-! Helper lemmas. -/

theorem xor_cancel_right (a b : Nat) : a ^^^ b ^^^ b = a := by
  rw [Nat.xor_assoc, Nat.xor_self, Nat.xor_zero]

theorem xor_left_comm (a b c : Nat) : a ^^^ (b ^^^ c) = b ^^^ (a ^^^ c) := by
  rw [← Nat.xor_assoc, Nat.xor_comm a b, Nat.xor_assoc]

/-- The swapped-argument `R2` undoes `R2`: feeding the updated pair back in
swapped order with swapped keys returns the original words, themselves in
swapped slot order. -/
theorem R2_swap_inv (w x y k l : Nat) :
    R2 w (R2 w x y k l).2 (R2 w x y k l).1 l k = (y, x) := by
  simp only [R2, Prod.mk.injEq]
  simp [Nat.xor_assoc, Nat.xor_comm, xor_left_comm, Nat.xor_self, Nat.xor_zero]

/-- One backward loop iteration undoes one forward loop iteration. -/
theorem decStep_encStep (w k l : Nat) (st : Nat × Nat) :
    decStep w k l (encStep w k l st) = st := by
  obtain ⟨x, y⟩ := st
  have h := R2_swap_inv w x y k l
  simp only [decStep, encStep, h]

/-- The backward loop undoes the forward loop, pair by pair. -/
theorem decLoop_encLoop (w : Nat) (k : Nat → Nat) :
    ∀ (n : Nat) (st : Nat × Nat), decLoop w k n (encLoop w k n st) = st
  | 0, _ => rfl
  | n + 1, st => by
    simp only [encLoop, decLoop, decStep_encStep]
    exact decLoop_encLoop w k n st

/-- Decryption inverts encryption for every width, round count and key
schedule. -/
theorem SIMON_Decrypt_Encrypt (w R : Nat) (k : Nat → Nat) (p : Nat × Nat) :
    SIMON_Decrypt w R k (SIMON_Encrypt w R k p) = p := by
  by_cases h : R % 2 = 1
  · simp only [SIMON_Encrypt, SIMON_Decrypt, if_pos h]
    rw [xor_cancel_right, xor_cancel_right]
    have hR : (R - 1) / 2 = R / 2 := by omega
    rw [hR]
    exact decLoop_encLoop w k (R / 2) _
  · simp only [SIMON_Encrypt, SIMON_Decrypt, if_neg h]
    exact decLoop_encLoop w k (R / 2) _

/-- C10: each paired round step is locally invertible: if `(x1, y1)` is the
state after `R2(x, y, k, l)`, then `R2(y1, x1, l, k)` — the call the decrypt
loop makes — yields `(y, x)` in its two slots, i.e. exactly the original
`(x, y)` once the decrypt loop reads the slots back in swapped order. -/
theorem C10_R2_locally_invertible (w x y k l : Nat) :
    R2 w (R2 w x y k l).2 (R2 w x y k l).1 l k = (y, x) :=
  R2_swap_inv w x y k l

/-- C1: for every variant (SIMON-64 with 42 or 44 rounds at width 32,
SIMON-128 with 68, 69 or 72 rounds at width 64), every round-key schedule of
the corresponding length, and every block, SIMON_Decrypt undoes
SIMON_Encrypt exactly. -/
theorem C1_decrypt_inverts_encrypt (k : List Nat) (p : Nat × Nat) :
    (k.length = 42 → SIMON_Decrypt 32 42 (fun i => k.getD i 0)
      (SIMON_Encrypt 32 42 (fun i => k.getD i 0) p) = p) ∧
    (k.length = 44 → SIMON_Decrypt 32 44 (fun i => k.getD i 0)
      (SIMON_Encrypt 32 44 (fun i => k.getD i 0) p) = p) ∧
    (k.length = 68 → SIMON_Decrypt 64 68 (fun i => k.getD i 0)
      (SIMON_Encrypt 64 68 (fun i => k.getD i 0) p) = p) ∧
    (k.length = 69 → SIMON_Decrypt 64 69 (fun i => k.getD i 0)
      (SIMON_Encrypt 64 69 (fun i => k.getD i 0) p) = p) ∧
    (k.length = 72 → SIMON_Decrypt 64 72 (fun i => k.getD i 0)
      (SIMON_Encrypt 64 72 (fun i => k.getD i 0) p) = p) :=
  ⟨fun _ => SIMON_Decrypt_Encrypt _ _ _ _, fun _ => SIMON_Decrypt_Encrypt _ _ _ _,
   fun _ => SIMON_Decrypt_Encrypt _ _ _ _, fun _ => SIMON_Decrypt_Encrypt _ _ _ _,
   fun _ => SIMON_Decrypt_Encrypt _ _ _ _⟩

/-- C1 witness: a concrete 42-word schedule and block round-trip. -/
theorem C1_decrypt_inverts_encrypt_witness :
    (List.replicate 42 7).length = 42 ∧
    SIMON_Decrypt 32 42 (fun i => (List.replicate 42 7).getD i 0)
      (SIMON_Encrypt 32 42 (fun i => (List.replicate 42 7).getD i 0) (1, 2)) = (1, 2) :=
  ⟨by decide, (C1_decrypt_inverts_encrypt (List.replicate 42 7) (1, 2)).1 (by decide)⟩

/-! Published test vectors (big-endian byte sequences). -/

/-- SIMON-64/128 key bytes, 1b1a1918 13121110 0b0a0908 03020100. -/
def tv64_128_key : List Nat :=
  [0x1b, 0x1a, 0x19, 0x18, 0x13, 0x12, 0x11, 0x10,
   0x0b, 0x0a, 0x09, 0x08, 0x03, 0x02, 0x01, 0x00]

/-- SIMON-64/128 plaintext bytes, 656b696c 20646e75. -/
def tv64_128_pt : List Nat :=
  [0x65, 0x6b, 0x69, 0x6c, 0x20, 0x64, 0x6e, 0x75]

/-- SIMON-128/128 key bytes, 0f0e0d0c0b0a0908 0706050403020100. -/
def tv128_128_key : List Nat :=
  [0x0f, 0x0e, 0x0d, 0x0c, 0x0b, 0x0a, 0x09, 0x08,
   0x07, 0x06, 0x05, 0x04, 0x03, 0x02, 0x01, 0x00]

/-- SIMON-128/128 plaintext bytes, 6373656420737265 6c6c657661727420. -/
def tv128_128_pt : List Nat :=
  [0x63, 0x73, 0x65, 0x64, 0x20, 0x73, 0x72, 0x65,
   0x6c, 0x6c, 0x65, 0x76, 0x61, 0x72, 0x74, 0x20]

/-- SIMON-128/192 key bytes, 17161514131211100f0e0d0c0b0a0908 0706050403020100. -/
def tv128_192_key : List Nat :=
  [0x17, 0x16, 0x15, 0x14, 0x13, 0x12, 0x11, 0x10,
   0x0f, 0x0e, 0x0d, 0x0c, 0x0b, 0x0a, 0x09, 0x08,
   0x07, 0x06, 0x05, 0x04, 0x03, 0x02, 0x01, 0x00]

/-- SIMON-128/192 plaintext bytes, 206572656874206e 6568772065626972. -/
def tv128_192_pt : List Nat :=
  [0x20, 0x65, 0x72, 0x65, 0x68, 0x74, 0x20, 0x6e,
   0x65, 0x68, 0x77, 0x20, 0x65, 0x62, 0x69, 0x72]

/-- SIMON-128/256 key bytes, 1f1e1d1c1b1a1918 1716151413121110
0f0e0d0c0b0a0908 0706050403020100. -/
def tv128_256_key : List Nat :=
  [0x1f, 0x1e, 0x1d, 0x1c, 0x1b, 0x1a, 0x19, 0x18,
   0x17, 0x16, 0x15, 0x14, 0x13, 0x12, 0x11, 0x10,
   0x0f, 0x0e, 0x0d, 0x0c, 0x0b, 0x0a, 0x09, 0x08,
   0x07, 0x06, 0x05, 0x04, 0x03, 0x02, 0x01, 0x00]

/-- SIMON-128/256 plaintext bytes, 74206e69206d6f6f 6d69732061207369. -/
def tv128_256_pt : List Nat :=
  [0x74, 0x20, 0x6e, 0x69, 0x20, 0x6d, 0x6f, 0x6f,
   0x6d, 0x69, 0x73, 0x20, 0x61, 0x20, 0x73, 0x69]

/-- C2: for each published test vector — SIMON-128/192 (the only odd-round
variant) and the SIMON-64/128, SIMON-128/128 and SIMON-128/256 vectors —
expanding the big-endian-decoded key with the matching expansion routine and
encrypting the big-endian-decoded plaintext block yields exactly the listed
ciphertext words. -/
theorem C2_published_test_vectors :
    (SIMON_Encrypt 64 69
      (fun i => (SIMON128_ExpandKey_69R3K (beWords 8 tv128_192_key)).getD i 0)
      ((beWords 8 tv128_192_pt).getD 0 0, (beWords 8 tv128_192_pt).getD 1 0) =
      (0xc4ac61effcdc0d4f, 0x6c9c8d6e2597b85b)) ∧
    (SIMON_Encrypt 32 44
      (fun i => (SIMON64_ExpandKey_44R4K (beWords 4 tv64_128_key)).getD i 0)
      ((beWords 4 tv64_128_pt).getD 0 0, (beWords 4 tv64_128_pt).getD 1 0) =
      (0x44c8fc20, 0xb9dfa07a)) ∧
    (SIMON_Encrypt 64 68
      (fun i => (SIMON128_ExpandKey_68R2K (beWords 8 tv128_128_key)).getD i 0)
      ((beWords 8 tv128_128_pt).getD 0 0, (beWords 8 tv128_128_pt).getD 1 0) =
      (0x49681b1e1e54fe3f, 0x65aa832af84e0bbc)) ∧
    (SIMON_Encrypt 64 72
      (fun i => (SIMON128_ExpandKey_72R4K (beWords 8 tv128_256_key)).getD i 0)
      ((beWords 8 tv128_256_pt).getD 0 0, (beWords 8 tv128_256_pt).getD 1 0) =
      (0x8d2b5579afc8a3a0, 0x3bf72a87efe7b868)) := by
  decide

/-- C3 counterexample: the claim says every variant's z-driven recurrence
produces exactly 62 derived words, but the 42-round SIMON-64 loop
(`for i=3; i<42`) derives only 39. -/
theorem C3_counterexample : ¬ (zSteps_42R3K = 62) := by decide

/-- C3 amended: the z-driven recurrence derives `R - m` words — 39 for
SIMON-64/96, 40 for SIMON-64/128, and 64 (not 62) for each SIMON-128
variant — before the tail indices are handled. -/
theorem C3_zSteps_amended :
    zSteps_42R3K = 39 ∧ zSteps_44R4K = 40 ∧ zSteps_68R2K = 64 ∧
    zSteps_69R3K = 64 ∧ zSteps_72R4K = 64 := by decide

/-- Any fold whose step conses one word onto the accumulator leaves the
initial accumulator as a suffix, below as many new words as steps taken. -/
theorem foldl_cons_exists (s : List Nat → Nat → List Nat)
    (hs : ∀ a j, ∃ v, s a j = v :: a) :
    ∀ (l : List Nat) (init : List Nat),
      ∃ pre : List Nat, pre.length = l.length ∧ l.foldl s init = pre ++ init
  | [], _ => ⟨[], rfl, rfl⟩
  | x :: xs, init => by
    obtain ⟨v, hv⟩ := hs init x
    obtain ⟨pre, hl, he⟩ := foldl_cons_exists s hs xs (s init x)
    refine ⟨pre ++ [v], by simp [hl], ?_⟩
    rw [List.foldl_cons, he, hv, List.append_assoc]
    rfl

/-- `getD` through a reverse, for indices inside the list. -/
theorem getD_reverse_of_lt {l : List Nat} {i : Nat} (h : i < l.length) :
    l.reverse.getD i 0 = l.getD (l.length - 1 - i) 0 := by
  simp only [List.getD_eq_getElem?_getD]
  rw [List.getElem?_reverse h]

/-- The `stepK2` loop leaves its seed as a suffix. -/
theorem stepK2_foldl_suffix (w z : Nat) (l init : List Nat) :
    ∃ pre : List Nat, pre.length = l.length ∧
      l.foldl (stepK2 w z) init = pre ++ init :=
  foldl_cons_exists _ (fun _ _ => ⟨_, rfl⟩) l init

/-- The `stepK3` loop leaves its seed as a suffix. -/
theorem stepK3_foldl_suffix (w z : Nat) (l init : List Nat) :
    ∃ pre : List Nat, pre.length = l.length ∧
      l.foldl (stepK3 w z) init = pre ++ init :=
  foldl_cons_exists _ (fun _ _ => ⟨_, rfl⟩) l init

/-- The `stepK4` loop leaves its seed as a suffix. -/
theorem stepK4_foldl_suffix (w z : Nat) (l init : List Nat) :
    ∃ pre : List Nat, pre.length = l.length ∧
      l.foldl (stepK4 w z) init = pre ++ init :=
  foldl_cons_exists _ (fun _ _ => ⟨_, rfl⟩) l init

/-- The 68-round schedule's two tail words follow the two-word recurrence
shape with bits 1 then 0. -/
theorem SIMON128_68R2K_tails (uk : List Nat) :
    ((SIMON128_ExpandKey_68R2K uk).getD 66 0 =
      sched2 64 1 ((SIMON128_ExpandKey_68R2K uk).getD 64 0)
        ((SIMON128_ExpandKey_68R2K uk).getD 65 0)) ∧
    ((SIMON128_ExpandKey_68R2K uk).getD 67 0 =
      sched2 64 0 ((SIMON128_ExpandKey_68R2K uk).getD 65 0)
        ((SIMON128_ExpandKey_68R2K uk).getD 66 0)) := by
  simp only [SIMON128_ExpandKey_68R2K]
  set F := (List.range zSteps_68R2K).foldl (stepK2 64 0x7369f885192c0ef5)
    [uk.getD 0 0, uk.getD 1 0] with hF
  have hFl : F.length = 66 := by
    rw [hF]
    obtain ⟨pre, hl, he⟩ := stepK2_foldl_suffix 64 0x7369f885192c0ef5
      (List.range zSteps_68R2K) [uk.getD 0 0, uk.getD 1 0]
    rw [he]; simp [hl, zSteps_68R2K]
  set t66 := sched2 64 1 (F.getD 1 0) (F.getD 0 0) with ht66
  set t67 := sched2 64 0 (F.getD 0 0) t66 with ht67
  have hc : (t67 :: t66 :: F).length = 68 := by simp [hFl]
  have e67 : (t67 :: t66 :: F).reverse.getD 67 0 = t67 := by
    rw [getD_reverse_of_lt (show (67:Nat) < (t67 :: t66 :: F).length by simp [hc]), hc]
    simp
  have e66 : (t67 :: t66 :: F).reverse.getD 66 0 = t66 := by
    rw [getD_reverse_of_lt (show (66:Nat) < (t67 :: t66 :: F).length by simp [hc]), hc]
    simp
  have e65 : (t67 :: t66 :: F).reverse.getD 65 0 = F.getD 0 0 := by
    rw [getD_reverse_of_lt (show (65:Nat) < (t67 :: t66 :: F).length by simp [hc]), hc]
    simp
  have e64 : (t67 :: t66 :: F).reverse.getD 64 0 = F.getD 1 0 := by
    rw [getD_reverse_of_lt (show (64:Nat) < (t67 :: t66 :: F).length by simp [hc]), hc]
    simp
  rw [e64, e65, e66, e67]
  exact ⟨ht66, ht67⟩

/-- The 69-round schedule's two tail words follow the two-word recurrence
shape with bits 0 then 1. -/
theorem SIMON128_69R3K_tails (uk : List Nat) :
    ((SIMON128_ExpandKey_69R3K uk).getD 67 0 =
      sched2 64 0 ((SIMON128_ExpandKey_69R3K uk).getD 64 0)
        ((SIMON128_ExpandKey_69R3K uk).getD 66 0)) ∧
    ((SIMON128_ExpandKey_69R3K uk).getD 68 0 =
      sched2 64 1 ((SIMON128_ExpandKey_69R3K uk).getD 65 0)
        ((SIMON128_ExpandKey_69R3K uk).getD 67 0)) := by
  simp only [SIMON128_ExpandKey_69R3K]
  set F := (List.range zSteps_69R3K).foldl (stepK3 64 0xfc2ce51207a635db)
    [uk.getD 0 0, uk.getD 1 0, uk.getD 2 0] with hF
  have hFl : F.length = 67 := by
    rw [hF]
    obtain ⟨pre, hl, he⟩ := stepK3_foldl_suffix 64 0xfc2ce51207a635db
      (List.range zSteps_69R3K) [uk.getD 0 0, uk.getD 1 0, uk.getD 2 0]
    rw [he]; simp [hl, zSteps_69R3K]
  set t67 := sched2 64 0 (F.getD 2 0) (F.getD 0 0) with ht67
  set t68 := sched2 64 1 ((t67 :: F).getD 2 0) t67 with ht68
  have hc : (t68 :: t67 :: F).length = 69 := by simp [hFl]
  have e68 : (t68 :: t67 :: F).reverse.getD 68 0 = t68 := by
    rw [getD_reverse_of_lt (show (68:Nat) < (t68 :: t67 :: F).length by simp [hc]), hc]
    simp
  have e67 : (t68 :: t67 :: F).reverse.getD 67 0 = t67 := by
    rw [getD_reverse_of_lt (show (67:Nat) < (t68 :: t67 :: F).length by simp [hc]), hc]
    simp
  have e66 : (t68 :: t67 :: F).reverse.getD 66 0 = F.getD 0 0 := by
    rw [getD_reverse_of_lt (show (66:Nat) < (t68 :: t67 :: F).length by simp [hc]), hc]
    simp
  have e65 : (t68 :: t67 :: F).reverse.getD 65 0 = F.getD 1 0 := by
    rw [getD_reverse_of_lt (show (65:Nat) < (t68 :: t67 :: F).length by simp [hc]), hc]
    simp
  have e64 : (t68 :: t67 :: F).reverse.getD 64 0 = F.getD 2 0 := by
    rw [getD_reverse_of_lt (show (64:Nat) < (t68 :: t67 :: F).length by simp [hc]), hc]
    simp
  rw [e64, e65, e66, e67, e68]
  refine ⟨ht67, ?_⟩
  rw [ht68]
  simp [List.getD]

/-- The 72-round schedule's four tail words follow the four-word recurrence
shape with bits 0, 1, 0, 0. -/
theorem SIMON128_72R4K_tails (uk : List Nat) :
    ((SIMON128_ExpandKey_72R4K uk).getD 68 0 =
      sched4 64 0 ((SIMON128_ExpandKey_72R4K uk).getD 64 0)
        ((SIMON128_ExpandKey_72R4K uk).getD 67 0)
        ((SIMON128_ExpandKey_72R4K uk).getD 65 0)) ∧
    ((SIMON128_ExpandKey_72R4K uk).getD 69 0 =
      sched4 64 1 ((SIMON128_ExpandKey_72R4K uk).getD 65 0)
        ((SIMON128_ExpandKey_72R4K uk).getD 68 0)
        ((SIMON128_ExpandKey_72R4K uk).getD 66 0)) ∧
    ((SIMON128_ExpandKey_72R4K uk).getD 70 0 =
      sched4 64 0 ((SIMON128_ExpandKey_72R4K uk).getD 66 0)
        ((SIMON128_ExpandKey_72R4K uk).getD 69 0)
        ((SIMON128_ExpandKey_72R4K uk).getD 67 0)) ∧
    ((SIMON128_ExpandKey_72R4K uk).getD 71 0 =
      sched4 64 0 ((SIMON128_ExpandKey_72R4K uk).getD 67 0)
        ((SIMON128_ExpandKey_72R4K uk).getD 70 0)
        ((SIMON128_ExpandKey_72R4K uk).getD 68 0)) := by
  simp only [SIMON128_ExpandKey_72R4K]
  set F := (List.range zSteps_72R4K).foldl (stepK4 64 0xfdc94c3a046d678b)
    [uk.getD 0 0, uk.getD 1 0, uk.getD 2 0, uk.getD 3 0] with hF
  have hFl : F.length = 68 := by
    rw [hF]
    obtain ⟨pre, hl, he⟩ := stepK4_foldl_suffix 64 0xfdc94c3a046d678b
      (List.range zSteps_72R4K) [uk.getD 0 0, uk.getD 1 0, uk.getD 2 0, uk.getD 3 0]
    rw [he]; simp [hl, zSteps_72R4K]
  set t68 := sched4 64 0 (F.getD 3 0) (F.getD 0 0) (F.getD 2 0) with ht68
  set t69 := sched4 64 1 ((t68 :: F).getD 3 0) ((t68 :: F).getD 0 0)
    ((t68 :: F).getD 2 0) with ht69
  set t70 := sched4 64 0 ((t69 :: t68 :: F).getD 3 0) ((t69 :: t68 :: F).getD 0 0)
    ((t69 :: t68 :: F).getD 2 0) with ht70
  set t71 := sched4 64 0 ((t70 :: t69 :: t68 :: F).getD 3 0)
    ((t70 :: t69 :: t68 :: F).getD 0 0) ((t70 :: t69 :: t68 :: F).getD 2 0) with ht71
  have hc : (t71 :: t70 :: t69 :: t68 :: F).length = 72 := by simp [hFl]
  have e71 : (t71 :: t70 :: t69 :: t68 :: F).reverse.getD 71 0 = t71 := by
    rw [getD_reverse_of_lt
      (show (71:Nat) < (t71 :: t70 :: t69 :: t68 :: F).length by simp [hc]), hc]
    simp
  have e70 : (t71 :: t70 :: t69 :: t68 :: F).reverse.getD 70 0 = t70 := by
    rw [getD_reverse_of_lt
      (show (70:Nat) < (t71 :: t70 :: t69 :: t68 :: F).length by simp [hc]), hc]
    simp
  have e69 : (t71 :: t70 :: t69 :: t68 :: F).reverse.getD 69 0 = t69 := by
    rw [getD_reverse_of_lt
      (show (69:Nat) < (t71 :: t70 :: t69 :: t68 :: F).length by simp [hc]), hc]
    simp
  have e68 : (t71 :: t70 :: t69 :: t68 :: F).reverse.getD 68 0 = t68 := by
    rw [getD_reverse_of_lt
      (show (68:Nat) < (t71 :: t70 :: t69 :: t68 :: F).length by simp [hc]), hc]
    simp
  have e67 : (t71 :: t70 :: t69 :: t68 :: F).reverse.getD 67 0 = F.getD 0 0 := by
    rw [getD_reverse_of_lt
      (show (67:Nat) < (t71 :: t70 :: t69 :: t68 :: F).length by simp [hc]), hc]
    simp
  have e66 : (t71 :: t70 :: t69 :: t68 :: F).reverse.getD 66 0 = F.getD 1 0 := by
    rw [getD_reverse_of_lt
      (show (66:Nat) < (t71 :: t70 :: t69 :: t68 :: F).length by simp [hc]), hc]
    simp
  have e65 : (t71 :: t70 :: t69 :: t68 :: F).reverse.getD 65 0 = F.getD 2 0 := by
    rw [getD_reverse_of_lt
      (show (65:Nat) < (t71 :: t70 :: t69 :: t68 :: F).length by simp [hc]), hc]
    simp
  have e64 : (t71 :: t70 :: t69 :: t68 :: F).reverse.getD 64 0 = F.getD 3 0 := by
    rw [getD_reverse_of_lt
      (show (64:Nat) < (t71 :: t70 :: t69 :: t68 :: F).length by simp [hc]), hc]
    simp
  rw [e64, e65, e66, e67, e68, e69, e70, e71]
  refine ⟨ht68, ?_, ?_, ?_⟩
  · rw [ht69]; simp [List.getD]
  · rw [ht70]; simp [List.getD]
  · rw [ht71]; simp [List.getD]

/-- C4: for each SIMON-128 variant, every tail round-key past the z-driven
range is computed by the same recurrence shape as the main loop with the
`(z AND 1)` term replaced by the published constant bits: 68R/2K uses 1 then
0 for key[66], key[67]; 69R/3K uses 0 then 1 for key[67], key[68]; 72R/4K
uses 0, 1, 0, 0 for key[68] … key[71]. -/
theorem C4_tail_round_keys (uk : List Nat) :
    (((SIMON128_ExpandKey_68R2K uk).getD 66 0 =
      sched2 64 1 ((SIMON128_ExpandKey_68R2K uk).getD 64 0)
        ((SIMON128_ExpandKey_68R2K uk).getD 65 0)) ∧
     ((SIMON128_ExpandKey_68R2K uk).getD 67 0 =
      sched2 64 0 ((SIMON128_ExpandKey_68R2K uk).getD 65 0)
        ((SIMON128_ExpandKey_68R2K uk).getD 66 0))) ∧
    (((SIMON128_ExpandKey_69R3K uk).getD 67 0 =
      sched2 64 0 ((SIMON128_ExpandKey_69R3K uk).getD 64 0)
        ((SIMON128_ExpandKey_69R3K uk).getD 66 0)) ∧
     ((SIMON128_ExpandKey_69R3K uk).getD 68 0 =
      sched2 64 1 ((SIMON128_ExpandKey_69R3K uk).getD 65 0)
        ((SIMON128_ExpandKey_69R3K uk).getD 67 0))) ∧
    (((SIMON128_ExpandKey_72R4K uk).getD 68 0 =
      sched4 64 0 ((SIMON128_ExpandKey_72R4K uk).getD 64 0)
        ((SIMON128_ExpandKey_72R4K uk).getD 67 0)
        ((SIMON128_ExpandKey_72R4K uk).getD 65 0)) ∧
     ((SIMON128_ExpandKey_72R4K uk).getD 69 0 =
      sched4 64 1 ((SIMON128_ExpandKey_72R4K uk).getD 65 0)
        ((SIMON128_ExpandKey_72R4K uk).getD 68 0)
        ((SIMON128_ExpandKey_72R4K uk).getD 66 0)) ∧
     ((SIMON128_ExpandKey_72R4K uk).getD 70 0 =
      sched4 64 0 ((SIMON128_ExpandKey_72R4K uk).getD 66 0)
        ((SIMON128_ExpandKey_72R4K uk).getD 69 0)
        ((SIMON128_ExpandKey_72R4K uk).getD 67 0)) ∧
     ((SIMON128_ExpandKey_72R4K uk).getD 71 0 =
      sched4 64 0 ((SIMON128_ExpandKey_72R4K uk).getD 67 0)
        ((SIMON128_ExpandKey_72R4K uk).getD 70 0)
        ((SIMON128_ExpandKey_72R4K uk).getD 68 0))) :=
  ⟨SIMON128_68R2K_tails uk, SIMON128_69R3K_tails uk, SIMON128_72R4K_tails uk⟩

/-- C5: for every expansion routine, the first `m` entries of the produced
round-key schedule are the user-key words in reverse order:
`key[i] = userKey[m-1-i]` for every `i` from 0 to `m-1`. -/
theorem C5_seeding_reversed (uk : List Nat) :
    (SIMON64_ExpandKey_42R3K uk).take 3 =
      [uk.getD 2 0, uk.getD 1 0, uk.getD 0 0] ∧
    (SIMON64_ExpandKey_44R4K uk).take 4 =
      [uk.getD 3 0, uk.getD 2 0, uk.getD 1 0, uk.getD 0 0] ∧
    (SIMON128_ExpandKey_68R2K uk).take 2 =
      [uk.getD 1 0, uk.getD 0 0] ∧
    (SIMON128_ExpandKey_69R3K uk).take 3 =
      [uk.getD 2 0, uk.getD 1 0, uk.getD 0 0] ∧
    (SIMON128_ExpandKey_72R4K uk).take 4 =
      [uk.getD 3 0, uk.getD 2 0, uk.getD 1 0, uk.getD 0 0] := by
  refine ⟨?_, ?_, ?_, ?_, ?_⟩
  · obtain ⟨pre, hl, he⟩ := stepK3_foldl_suffix 32 0x7369f885192c0ef5
      (List.range zSteps_42R3K) [uk.getD 0 0, uk.getD 1 0, uk.getD 2 0]
    simp only [SIMON64_ExpandKey_42R3K]
    rw [he]
    simp
  · obtain ⟨pre, hl, he⟩ := stepK4_foldl_suffix 32 0xfc2ce51207a635db
      (List.range zSteps_44R4K) [uk.getD 0 0, uk.getD 1 0, uk.getD 2 0, uk.getD 3 0]
    simp only [SIMON64_ExpandKey_44R4K]
    rw [he]
    simp
  · obtain ⟨pre, hl, he⟩ := stepK2_foldl_suffix 64 0x7369f885192c0ef5
      (List.range zSteps_68R2K) [uk.getD 0 0, uk.getD 1 0]
    simp only [SIMON128_ExpandKey_68R2K]
    rw [he]
    simp
  · obtain ⟨pre, hl, he⟩ := stepK3_foldl_suffix 64 0xfc2ce51207a635db
      (List.range zSteps_69R3K) [uk.getD 0 0, uk.getD 1 0, uk.getD 2 0]
    simp only [SIMON128_ExpandKey_69R3K]
    rw [he]
    simp
  · obtain ⟨pre, hl, he⟩ := stepK4_foldl_suffix 64 0xfdc94c3a046d678b
      (List.range zSteps_72R4K) [uk.getD 0 0, uk.getD 1 0, uk.getD 2 0, uk.getD 3 0]
    simp only [SIMON128_ExpandKey_72R4K]
    rw [he]
    simp

/-- Every expansion routine produces a schedule of exactly its round count,
whatever the user key. -/
theorem expand_lengths (uk : List Nat) :
    (SIMON64_ExpandKey_42R3K uk).length = 42 ∧
    (SIMON64_ExpandKey_44R4K uk).length = 44 ∧
    (SIMON128_ExpandKey_68R2K uk).length = 68 ∧
    (SIMON128_ExpandKey_69R3K uk).length = 69 ∧
    (SIMON128_ExpandKey_72R4K uk).length = 72 := by
  refine ⟨?_, ?_, ?_, ?_, ?_⟩
  · obtain ⟨pre, hl, he⟩ := stepK3_foldl_suffix 32 0x7369f885192c0ef5
      (List.range zSteps_42R3K) [uk.getD 0 0, uk.getD 1 0, uk.getD 2 0]
    simp only [SIMON64_ExpandKey_42R3K]
    rw [he]
    simp [hl, zSteps_42R3K]
  · obtain ⟨pre, hl, he⟩ := stepK4_foldl_suffix 32 0xfc2ce51207a635db
      (List.range zSteps_44R4K) [uk.getD 0 0, uk.getD 1 0, uk.getD 2 0, uk.getD 3 0]
    simp only [SIMON64_ExpandKey_44R4K]
    rw [he]
    simp [hl, zSteps_44R4K]
  · obtain ⟨pre, hl, he⟩ := stepK2_foldl_suffix 64 0x7369f885192c0ef5
      (List.range zSteps_68R2K) [uk.getD 0 0, uk.getD 1 0]
    simp only [SIMON128_ExpandKey_68R2K]
    rw [he]
    simp [hl, zSteps_68R2K]
  · obtain ⟨pre, hl, he⟩ := stepK3_foldl_suffix 64 0xfc2ce51207a635db
      (List.range zSteps_69R3K) [uk.getD 0 0, uk.getD 1 0, uk.getD 2 0]
    simp only [SIMON128_ExpandKey_69R3K]
    rw [he]
    simp [hl, zSteps_69R3K]
  · obtain ⟨pre, hl, he⟩ := stepK4_foldl_suffix 64 0xfdc94c3a046d678b
      (List.range zSteps_72R4K) [uk.getD 0 0, uk.getD 1 0, uk.getD 2 0, uk.getD 3 0]
    simp only [SIMON128_ExpandKey_72R4K]
    rw [he]
    simp [hl, zSteps_72R4K]

/-- C6: key setup is a pure function of the user-key bytes (the model's
setup and expansion take nothing else), and after setup with an accepted key
length the stored round count and the schedule length equal exactly the
table's R: 42 and 44 for 12- and 16-byte SIMON-64 keys; 68, 69, 72 for 16-,
24-, 32-byte SIMON-128 keys.  The schedule is returned as an immutable
value; the block operations consume it read-only. -/
theorem C6_setup_rounds_and_length (kb : List Nat) :
    (kb.length = 12 →
      SIMON64_UncheckedSetKey kb =
        some (42, SIMON64_ExpandKey_42R3K (beWords 4 kb)) ∧
      (SIMON64_ExpandKey_42R3K (beWords 4 kb)).length = 42) ∧
    (kb.length = 16 →
      SIMON64_UncheckedSetKey kb =
        some (44, SIMON64_ExpandKey_44R4K (beWords 4 kb)) ∧
      (SIMON64_ExpandKey_44R4K (beWords 4 kb)).length = 44) ∧
    (kb.length = 16 →
      SIMON128_UncheckedSetKey kb =
        some (68, SIMON128_ExpandKey_68R2K (beWords 8 kb)) ∧
      (SIMON128_ExpandKey_68R2K (beWords 8 kb)).length = 68) ∧
    (kb.length = 24 →
      SIMON128_UncheckedSetKey kb =
        some (69, SIMON128_ExpandKey_69R3K (beWords 8 kb)) ∧
      (SIMON128_ExpandKey_69R3K (beWords 8 kb)).length = 69) ∧
    (kb.length = 32 →
      SIMON128_UncheckedSetKey kb =
        some (72, SIMON128_ExpandKey_72R4K (beWords 8 kb)) ∧
      (SIMON128_ExpandKey_72R4K (beWords 8 kb)).length = 72) := by
  refine ⟨fun h => ⟨?_, (expand_lengths _).1⟩,
          fun h => ⟨?_, (expand_lengths _).2.1⟩,
          fun h => ⟨?_, (expand_lengths _).2.2.1⟩,
          fun h => ⟨?_, (expand_lengths _).2.2.2.1⟩,
          fun h => ⟨?_, (expand_lengths _).2.2.2.2⟩⟩ <;>
    simp [SIMON64_UncheckedSetKey, SIMON128_UncheckedSetKey, h]

/-- C6 witness: concrete accepted keys of each length set up with the
table's round count and schedule length. -/
theorem C6_setup_rounds_and_length_witness :
    (SIMON64_UncheckedSetKey (List.replicate 12 0) =
        some (42, SIMON64_ExpandKey_42R3K (beWords 4 (List.replicate 12 0))) ∧
      (SIMON64_ExpandKey_42R3K (beWords 4 (List.replicate 12 0))).length = 42) ∧
    (SIMON128_UncheckedSetKey (List.replicate 24 0) =
        some (69, SIMON128_ExpandKey_69R3K (beWords 8 (List.replicate 24 0))) ∧
      (SIMON128_ExpandKey_69R3K (beWords 8 (List.replicate 24 0))).length = 69) :=
  ⟨(C6_setup_rounds_and_length (List.replicate 12 0)).1 (by decide),
   (C6_setup_rounds_and_length (List.replicate 24 0)).2.2.2.1 (by decide)⟩

/-- C7: key setup fails with InvalidKeyLength exactly when the user-key byte
length is outside the accepted set ({12, 16} for SIMON-64, {16, 24, 32} for
SIMON-128), and succeeds for every accepted length. -/
theorem C7_invalid_key_length (kb : List Nat) :
    (SIMON64_SetKey kb = Except.error KeyError.invalidKeyLength ↔
      ¬(kb.length = 12 ∨ kb.length = 16)) ∧
    ((∃ v, SIMON64_SetKey kb = Except.ok v) ↔
      (kb.length = 12 ∨ kb.length = 16)) ∧
    (SIMON128_SetKey kb = Except.error KeyError.invalidKeyLength ↔
      ¬(kb.length = 16 ∨ kb.length = 24 ∨ kb.length = 32)) ∧
    ((∃ v, SIMON128_SetKey kb = Except.ok v) ↔
      (kb.length = 16 ∨ kb.length = 24 ∨ kb.length = 32)) := by
  constructor
  · by_cases h : kb.length = 12 ∨ kb.length = 16
    · rcases h with h | h <;> simp [SIMON64_SetKey, SIMON64_UncheckedSetKey, h]
    · simp [SIMON64_SetKey, h]
  constructor
  · by_cases h : kb.length = 12 ∨ kb.length = 16
    · rcases h with h | h <;> simp [SIMON64_SetKey, SIMON64_UncheckedSetKey, h]
    · simp [SIMON64_SetKey, h]
  constructor
  · by_cases h : kb.length = 16 ∨ kb.length = 24 ∨ kb.length = 32
    · rcases h with h | h | h <;>
        simp [SIMON128_SetKey, SIMON128_UncheckedSetKey, h]
    · simp [SIMON128_SetKey, h]
  · by_cases h : kb.length = 16 ∨ kb.length = 24 ∨ kb.length = 32
    · rcases h with h | h | h <;>
        simp [SIMON128_SetKey, SIMON128_UncheckedSetKey, h]
    · simp [SIMON128_SetKey, h]

/-- Reading inside the region covered by a run of single-byte writes at
distinct offsets from `a` returns the byte written there. -/
theorem foldl_writeByte_read (bf : Nat → Nat) (a : Nat) :
    ∀ (n : Nat) (mem : Mem) (j : Nat), j < n →
      ((List.range n).foldl (fun m i => writeByte m (a + i) (bf i)) mem) (a + j)
        = bf j := by
  intro n
  induction n with
  | zero => intro mem j hj; omega
  | succ n ih =>
    intro mem j hj
    rw [List.range_succ, List.foldl_append]
    by_cases h : j = n
    · subst h
      simp [writeByte]
    · have hjn : j < n := by omega
      have hne : a + j ≠ a + n := by omega
      simp only [List.foldl_cons, List.foldl_nil, writeByte, if_neg hne]
      exact ih _ j hjn

/-- A run of single-byte writes at offsets from `a` leaves every other
address unchanged. -/
theorem foldl_writeByte_ne (bf : Nat → Nat) (a : Nat) :
    ∀ (n : Nat) (mem : Mem) (x : Nat), (∀ j, j < n → x ≠ a + j) →
      ((List.range n).foldl (fun m i => writeByte m (a + i) (bf i)) mem) x
        = mem x := by
  intro n
  induction n with
  | zero => intro mem x _; rfl
  | succ n ih =>
    intro mem x hx
    rw [List.range_succ, List.foldl_append]
    have hne : x ≠ a + n := hx n (by omega)
    simp only [List.foldl_cons, List.foldl_nil, writeByte, if_neg hne]
    exact ih _ x (fun j hj => hx j (by omega))

/-- Reading a byte out of a big-endian word write inside its region. -/
theorem writeWordBE_read_in (mem : Mem) (a n v j : Nat) (h : j < n) :
    (writeWordBE mem a n v) (a + j) = (v >>> (8 * (n - 1 - j))) % 256 :=
  foldl_writeByte_read (fun i => (v >>> (8 * (n - 1 - i))) % 256) a n mem j h

/-- A big-endian word write leaves addresses outside its region unchanged. -/
theorem writeWordBE_untouched (mem : Mem) (a n v x : Nat)
    (h : ∀ j, j < n → x ≠ a + j) :
    (writeWordBE mem a n v) x = mem x :=
  foldl_writeByte_ne (fun i => (v >>> (8 * (n - 1 - i))) % 256) a n mem x h

/-- Reading a byte of a two-word big-endian block write, as PutBlock emits
it: word `c1` at `outB`, word `c2` at `outB + n`. -/
theorem writeTwo_read (mem : Mem) (outB n c1 c2 j : Nat) (hj : j < 2 * n) :
    (writeWordBE (writeWordBE mem outB n c1) (outB + n) n c2) (outB + j) =
      if j < n then (c1 >>> (8 * (n - 1 - j))) % 256
      else (c2 >>> (8 * (n - 1 - (j - n)))) % 256 := by
  by_cases h : j < n
  · rw [if_pos h, writeWordBE_untouched _ _ _ _ _ (fun i hi => by omega)]
    exact writeWordBE_read_in mem outB n c1 j h
  · rw [if_neg h]
    have hx : outB + j = (outB + n) + (j - n) := by omega
    rw [hx, writeWordBE_read_in _ _ _ _ _ (by omega)]

/-- The bytes produced by a two-word block write do not depend on where the
block is written. -/
theorem twoWrites_base_indep (mem : Mem) (n c1 c2 a b j : Nat)
    (hj : j < 2 * n) :
    (writeWordBE (writeWordBE mem a n c1) (a + n) n c2) (a + j) =
      (writeWordBE (writeWordBE mem b n c1) (b + n) n c2) (b + j) := by
  rw [writeTwo_read mem a n c1 c2 j hj, writeTwo_read mem b n c1 c2 j hj]

/-- C8: for every cipher instance and input block, running the single-block
operation with the output buffer equal to the input buffer produces the same
output bytes as running it with a distinct output buffer on the same input
bytes; the code reads the whole input block before writing any output. -/
theorem C8_in_place_equals_out_of_place (rk : Nat → Nat) (rounds : Nat)
    (mem : Mem) (a b : Nat) :
    (∀ j, j < 8 →
      SIMON64_Enc_ProcessBlock rk rounds mem a a (a + j) =
      SIMON64_Enc_ProcessBlock rk rounds mem a b (b + j)) ∧
    (∀ j, j < 8 →
      SIMON64_Dec_ProcessBlock rk rounds mem a a (a + j) =
      SIMON64_Dec_ProcessBlock rk rounds mem a b (b + j)) ∧
    (∀ j, j < 16 →
      SIMON128_Enc_ProcessBlock rk rounds mem a a (a + j) =
      SIMON128_Enc_ProcessBlock rk rounds mem a b (b + j)) ∧
    (∀ j, j < 16 →
      SIMON128_Dec_ProcessBlock rk rounds mem a a (a + j) =
      SIMON128_Dec_ProcessBlock rk rounds mem a b (b + j)) := by
  refine ⟨fun j hj => ?_, fun j hj => ?_, fun j hj => ?_, fun j hj => ?_⟩
  · simp only [SIMON64_Enc_ProcessBlock]
    exact twoWrites_base_indep mem 4 _ _ a b j (by omega)
  · simp only [SIMON64_Dec_ProcessBlock]
    exact twoWrites_base_indep mem 4 _ _ a b j (by omega)
  · simp only [SIMON128_Enc_ProcessBlock]
    exact twoWrites_base_indep mem 8 _ _ a b j (by omega)
  · simp only [SIMON128_Dec_ProcessBlock]
    exact twoWrites_base_indep mem 8 _ _ a b j (by omega)

/-- C8 witness: a concrete in-place call matches the out-of-place call on an
output byte. -/
theorem C8_in_place_equals_out_of_place_witness :
    (3 : Nat) < 8 ∧
    SIMON64_Enc_ProcessBlock (fun _ => 0) 42 (fun _ => 0) 0 0 (0 + 3) =
      SIMON64_Enc_ProcessBlock (fun _ => 0) 42 (fun _ => 0) 0 32 (32 + 3) :=
  ⟨by decide,
   (C8_in_place_equals_out_of_place (fun _ => 0) 42 (fun _ => 0) 0 32).1 3 (by decide)⟩

end Simon
